import Mathlib

/-!
Verification of the chunked, resumable market-data download pipeline of this
repository. Dates are modelled as natural numbers counting days since an
arbitrary epoch; `datetime + timedelta(days = k)` becomes `+ k` and the
string round-trip through `strftime`/`strptime` is the identity on day numbers.
-/

namespace Polygon

/-- Embedding of `PolygonDataDownloader.generate_date_chunks`
(src/get_1min_data_polygon.py, lines 350-370) with the hard-coded
45-day chunk duration generalised to a parameter `dur` (the spec calls the
chunk duration a configuration constant). The Python loop

  while current < end: chunk_end = min(current + 45, end);
  chunks.append((current, chunk_end)); current = chunk_end + 1

is translated with days as naturals. -/
def generate_date_chunks_dur (dur start_date end_date : Nat) : List (Nat × Nat) :=
  if h : start_date < end_date then
    (start_date, min (start_date + dur) end_date) ::
      generate_date_chunks_dur dur (min (start_date + dur) end_date + 1) end_date
  else []
termination_by end_date - start_date
decreasing_by
  have h1 : start_date ≤ min (start_date + dur) end_date :=
    le_min (Nat.le_add_right _ _) (Nat.le_of_lt h)
  omega

/-- The chunker exactly as in the source, with its fixed 45-day duration. -/
def generate_date_chunks (start_date end_date : Nat) : List (Nat × Nat) :=
  generate_date_chunks_dur 45 start_date end_date

/-- Day number within 2024 (a leap year), with `day2024 1 1 = 0` standing for
2024-01-01. Used to state the concrete chunking scenario of the spec. -/
def day2024 (m d : Nat) : Nat :=
  (([31, 29, 31, 30, 31, 30, 31, 31, 30, 31, 30, 31] : List Nat).take (m - 1)).sum + (d - 1)

theorem generate_date_chunks_dur_fst_ge (dur : Nat) :
    ∀ s e, ∀ c ∈ generate_date_chunks_dur dur s e, s ≤ c.1 := by
  intro s e
  induction s, e using generate_date_chunks_dur.induct dur with
  | case1 s e h ih =>
    rw [generate_date_chunks_dur, dif_pos h]
    intro c hc
    rcases List.mem_cons.mp hc with rfl | hc
    · exact le_refl _
    · have h1 : s ≤ min (s + dur) e := le_min (Nat.le_add_right _ _) (Nat.le_of_lt h)
      have := ih c hc
      omega
  | case2 s e h =>
    rw [generate_date_chunks_dur, dif_neg h]
    simp

theorem generate_date_chunks_dur_valid (dur : Nat) :
    ∀ s e, ∀ c ∈ generate_date_chunks_dur dur s e, c.1 ≤ c.2 := by
  intro s e
  induction s, e using generate_date_chunks_dur.induct dur with
  | case1 s e h ih =>
    rw [generate_date_chunks_dur, dif_pos h]
    intro c hc
    rcases List.mem_cons.mp hc with rfl | hc
    · exact le_min (Nat.le_add_right _ _) (Nat.le_of_lt h)
    · exact ih c hc
  | case2 s e h =>
    rw [generate_date_chunks_dur, dif_neg h]
    simp

theorem generate_date_chunks_dur_head_fst (dur : Nat) (s e : Nat) :
    ∀ y ∈ (generate_date_chunks_dur dur s e).head?, y.1 = s := by
  rw [generate_date_chunks_dur]
  split
  · intro y hy
    simp only [List.head?_cons, Option.mem_def, Option.some.injEq] at hy
    rw [← hy]
  · intro y hy
    simp at hy

theorem generate_date_chunks_dur_chain (dur : Nat) :
    ∀ s e, List.Chain' (fun a b => b.1 = a.2 + 1) (generate_date_chunks_dur dur s e) := by
  intro s e
  induction s, e using generate_date_chunks_dur.induct dur with
  | case1 s e h ih =>
    rw [generate_date_chunks_dur, dif_pos h]
    refine List.chain'_cons'.mpr ⟨?_, ih⟩
    intro y hy
    have := generate_date_chunks_dur_head_fst dur (min (s + dur) e + 1) e y hy
    simp [this]
  | case2 s e h =>
    rw [generate_date_chunks_dur, dif_neg h]
    exact List.chain'_nil

theorem generate_date_chunks_dur_pairwise (dur : Nat) :
    ∀ s e, List.Pairwise (fun a b : Nat × Nat => a.2 < b.1)
      (generate_date_chunks_dur dur s e) := by
  intro s e
  induction s, e using generate_date_chunks_dur.induct dur with
  | case1 s e h ih =>
    rw [generate_date_chunks_dur, dif_pos h]
    refine List.pairwise_cons.mpr ⟨?_, ih⟩
    intro c hc
    have := generate_date_chunks_dur_fst_ge dur _ _ c hc
    omega
  | case2 s e h =>
    rw [generate_date_chunks_dur, dif_neg h]
    exact List.Pairwise.nil

theorem generate_date_chunks_dur_union (dur : Nat) :
    ∀ s e, s < e → ¬ (dur + 1) ∣ (e - s) → ∀ x,
      ((∃ c ∈ generate_date_chunks_dur dur s e, c.1 ≤ x ∧ x ≤ c.2) ↔ (s ≤ x ∧ x ≤ e)) := by
  intro s e
  induction s, e using generate_date_chunks_dur.induct dur with
  | case1 s e h ih =>
    intro _ h2 x
    rw [generate_date_chunks_dur, dif_pos h]
    by_cases hce : e ≤ s + dur
    · have hm : min (s + dur) e = e := min_eq_right hce
      rw [hm]
      have hnil : generate_date_chunks_dur dur (e + 1) e = [] := by
        rw [generate_date_chunks_dur, dif_neg (by omega)]
      rw [hnil]
      constructor
      · rintro ⟨c, hc, hcx⟩
        simp only [List.mem_cons, List.not_mem_nil, or_false] at hc
        subst hc
        exact hcx
      · intro hx
        exact ⟨(s, e), by simp, hx⟩
    · push_neg at hce
      have hm : min (s + dur) e = s + dur := min_eq_left (by omega)
      rw [hm] at ih ⊢
      have hlt : s + dur + 1 < e := by
        rcases Nat.lt_or_ge (s + dur + 1) e with h' | h'
        · exact h'
        · exfalso
          apply h2
          have heq : e - s = dur + 1 := by omega
          rw [heq]
      have hdvd : ¬ (dur + 1) ∣ (e - (s + dur + 1)) := by
        intro hd
        apply h2
        have heq : e - (s + dur + 1) + (dur + 1) = e - s := by omega
        rw [← heq]
        exact Nat.dvd_add hd (dvd_refl _)
      constructor
      · rintro ⟨c, hc, hcx⟩
        rcases List.mem_cons.mp hc with rfl | hc
        · simp only at hcx
          omega
        · have := (ih hlt hdvd x).mp ⟨c, hc, hcx⟩
          omega
      · intro hx
        by_cases hxm : x ≤ s + dur
        · exact ⟨(s, s + dur), by simp, by omega⟩
        · obtain ⟨c, hc, hcx⟩ := (ih hlt hdvd x).mpr (by omega)
          exact ⟨c, List.mem_cons_of_mem _ hc, hcx⟩
  | case2 s e h =>
    intro h1
    exact absurd h1 h

/-- Abstract calendar: `firstDay m` is the day number of the first day of
month `m`. Months are nonempty and the epoch (day 0) opens month 0, so any
real calendar over the modelled day range fits by numbering months from the
epoch month. Used to embed the calendar arithmetic that
`dateutil.relativedelta(months=1)` performs in `month_chunks`
(src/data_loading/ohlc_data_loader.py, lines 37-46). -/
structure Calendar where
  firstDay : Nat → Nat
  firstDay_zero : firstDay 0 = 0
  firstDay_mono : ∀ m, firstDay m < firstDay (m + 1)

theorem Calendar.strictMono_firstDay (c : Calendar) : StrictMono c.firstDay :=
  strictMono_nat_of_lt_succ c.firstDay_mono

theorem Calendar.le_firstDay (c : Calendar) : ∀ m, m ≤ c.firstDay m := by
  intro m
  induction m with
  | zero => exact Nat.zero_le _
  | succ m ih =>
    have := c.firstDay_mono m
    omega

/-- Largest month index `k ≤ fuel` whose first day is at or before day `s`;
helper for `Calendar.monthOf`. -/
def Calendar.monthOfAux (c : Calendar) (s : Nat) : Nat → Nat
  | 0 => 0
  | m + 1 => if c.firstDay (m + 1) ≤ s then m + 1 else c.monthOfAux s m

/-- The month containing day `s`: embeds `datetime(s.year, s.month, 1)`, the
first-of-month truncation performed by `month_chunks`. -/
def Calendar.monthOf (c : Calendar) (s : Nat) : Nat := c.monthOfAux s s

theorem Calendar.firstDay_monthOfAux_le (c : Calendar) (s : Nat) :
    ∀ m, c.firstDay (c.monthOfAux s m) ≤ s := by
  intro m
  induction m with
  | zero => simp [Calendar.monthOfAux, c.firstDay_zero]
  | succ m ih =>
    rw [Calendar.monthOfAux]
    split
    · assumption
    · exact ih

theorem Calendar.le_monthOfAux (c : Calendar) (s : Nat) :
    ∀ m, ∀ k ≤ m, c.firstDay k ≤ s → k ≤ c.monthOfAux s m := by
  intro m
  induction m with
  | zero => intro k hk _; omega
  | succ m ih =>
    intro k hk hfk
    rw [Calendar.monthOfAux]
    split
    · exact hk
    · rcases Nat.lt_or_ge k (m + 1) with h' | h'
      · exact ih k (by omega) hfk
      · exfalso
        have : k = m + 1 := by omega
        subst this
        omega

theorem Calendar.firstDay_monthOf_le (c : Calendar) (s : Nat) :
    c.firstDay (c.monthOf s) ≤ s :=
  c.firstDay_monthOfAux_le s s

theorem Calendar.lt_firstDay_succ_monthOf (c : Calendar) (s : Nat) :
    s < c.firstDay (c.monthOf s + 1) := by
  by_contra hcon
  push_neg at hcon
  have hk : c.monthOf s + 1 ≤ s :=
    le_trans (c.le_firstDay (c.monthOf s + 1)) hcon
  have := c.le_monthOfAux s s (c.monthOf s + 1) hk hcon
  unfold Calendar.monthOf at this
  omega

/-- Embedding of the loop body of `month_chunks`: starting from month `m`
(the Python variable `cur` is `firstDay m`), while `cur ≤ e` yield
`(max cur s, min (cur + relativedelta(months=1) - relativedelta(days=1)) e)`
and advance `cur` by one month. -/
def monthChunksFrom (c : Calendar) (s e m : Nat) : List (Nat × Nat) :=
  if h : c.firstDay m ≤ e then
    (max (c.firstDay m) s, min (c.firstDay (m + 1) - 1) e) ::
      monthChunksFrom c s e (m + 1)
  else []
termination_by e + 1 - c.firstDay m
decreasing_by
  have := c.firstDay_mono m
  omega

/-- Embedding of `month_chunks` (src/data_loading/ohlc_data_loader.py,
lines 37-46): calendar-month chunking of `[s, e]`, starting at the first of
the month of `s`. -/
def month_chunks (c : Calendar) (s e : Nat) : List (Nat × Nat) :=
  monthChunksFrom c s e (c.monthOf s)

theorem monthChunksFrom_fst_ge (c : Calendar) (s e : Nat) :
    ∀ m, ∀ ch ∈ monthChunksFrom c s e m, c.firstDay m ≤ ch.1 ∧ s ≤ ch.1 := by
  intro m
  induction m using monthChunksFrom.induct c s e with
  | case1 m h ih =>
    rw [monthChunksFrom, dif_pos h]
    intro ch hch
    rcases List.mem_cons.mp hch with rfl | hch
    · constructor <;> simp
    · have := ih ch hch
      have := c.firstDay_mono m
      omega
  | case2 m h =>
    rw [monthChunksFrom, dif_neg h]
    simp

theorem monthChunksFrom_valid (c : Calendar) (s e : Nat) (hse : s ≤ e) :
    ∀ m, s < c.firstDay (m + 1) →
      ∀ ch ∈ monthChunksFrom c s e m, ch.1 ≤ ch.2 := by
  intro m
  induction m using monthChunksFrom.induct c s e with
  | case1 m h ih =>
    intro hs ch hch
    rw [monthChunksFrom, dif_pos h] at hch
    rcases List.mem_cons.mp hch with rfl | hch
    · have := c.firstDay_mono m
      simp only
      omega
    · have hs' : s < c.firstDay (m + 1 + 1) :=
        lt_of_lt_of_le hs (le_of_lt (c.firstDay_mono (m + 1)))
      exact ih hs' ch hch
  | case2 m h =>
    rw [monthChunksFrom, dif_neg h]
    simp

theorem monthChunksFrom_chain (c : Calendar) (s e : Nat) :
    ∀ m, s < c.firstDay (m + 1) →
      List.Chain' (fun a b => b.1 = a.2 + 1) (monthChunksFrom c s e m) := by
  intro m
  induction m using monthChunksFrom.induct c s e with
  | case1 m h ih =>
    intro hs
    have hs' : s < c.firstDay (m + 1 + 1) :=
      lt_of_lt_of_le hs (le_of_lt (c.firstDay_mono (m + 1)))
    rw [monthChunksFrom, dif_pos h]
    refine List.chain'_cons'.mpr ⟨?_, ih hs'⟩
    intro y hy
    rw [monthChunksFrom] at hy
    split at hy
    · rename_i h2
      simp only [List.head?_cons, Option.mem_def, Option.some.injEq] at hy
      subst hy
      have := c.firstDay_mono m
      simp only
      omega
    · simp at hy
  | case2 m h =>
    intro _
    rw [monthChunksFrom, dif_neg h]
    exact List.chain'_nil

theorem monthChunksFrom_pairwise (c : Calendar) (s e : Nat) :
    ∀ m, s < c.firstDay (m + 1) →
      List.Pairwise (fun a b : Nat × Nat => a.2 < b.1) (monthChunksFrom c s e m) := by
  intro m
  induction m using monthChunksFrom.induct c s e with
  | case1 m h ih =>
    intro hs
    have hs' : s < c.firstDay (m + 1 + 1) :=
      lt_of_lt_of_le hs (le_of_lt (c.firstDay_mono (m + 1)))
    rw [monthChunksFrom, dif_pos h]
    refine List.pairwise_cons.mpr ⟨?_, ih hs'⟩
    intro ch hch
    have := monthChunksFrom_fst_ge c s e (m + 1) ch hch
    have := c.firstDay_mono m
    simp only
    omega
  | case2 m h =>
    intro _
    rw [monthChunksFrom, dif_neg h]
    exact List.Pairwise.nil

theorem monthChunksFrom_union (c : Calendar) (s e : Nat) :
    ∀ m, s < c.firstDay (m + 1) → ∀ x,
      ((∃ ch ∈ monthChunksFrom c s e m, ch.1 ≤ x ∧ x ≤ ch.2) ↔
        (max (c.firstDay m) s ≤ x ∧ x ≤ e)) := by
  intro m
  induction m using monthChunksFrom.induct c s e with
  | case1 m h ih =>
    intro hs x
    have hs' : s < c.firstDay (m + 1 + 1) :=
      lt_of_lt_of_le hs (le_of_lt (c.firstDay_mono (m + 1)))
    have hmono := c.firstDay_mono m
    rw [monthChunksFrom, dif_pos h]
    constructor
    · rintro ⟨ch, hch, hchx⟩
      rcases List.mem_cons.mp hch with rfl | hch
      · simp only at hchx
        omega
      · have := (ih hs' x).mp ⟨ch, hch, hchx⟩
        omega
    · intro hx
      by_cases hxm : x ≤ min (c.firstDay (m + 1) - 1) e
      · exact ⟨(max (c.firstDay m) s, min (c.firstDay (m + 1) - 1) e), by simp, by omega⟩
      · obtain ⟨ch, hch, hchx⟩ := (ih hs' x).mpr (by omega)
        exact ⟨ch, List.mem_cons_of_mem _ hch, hchx⟩
  | case2 m h =>
    intro hs x
    rw [monthChunksFrom, dif_neg h]
    constructor
    · rintro ⟨y, hy, _⟩
      exact absurd hy (List.not_mem_nil y)
    · intro hx
      exfalso
      omega

theorem month_chunks_union (c : Calendar) (s e : Nat) (x : Nat) :
    (∃ ch ∈ month_chunks c s e, ch.1 ≤ x ∧ x ≤ ch.2) ↔ (s ≤ x ∧ x ≤ e) := by
  have h1 := c.firstDay_monthOf_le s
  have h2 := c.lt_firstDay_succ_monthOf s
  have := monthChunksFrom_union c s e (c.monthOf s) h2 x
  rw [month_chunks]
  rw [this]
  omega

/-- One OHLCV row as produced from a decoded result record
(src/get_1min_data_polygon.py, lines 414-429): a bucket-start timestamp and
the open, high, low, close, volume columns. Prices and volume are modelled as
integers; their values are opaque to the pipeline logic under verification. -/
structure Bar where
  ts : Nat
  open_ : Int
  high : Int
  low : Int
  close : Int
  volume : Int
  deriving DecidableEq, Repr

/-- Outcome of one HTTP request in `download_ticker_data`
(src/get_1min_data_polygon.py, lines 405-452): either a response with a
status code and a decoded `results` array (empty when the key is missing or
the list is empty), or an exception raised inside the `try` block. -/
inductive FetchResponse where
  | http (status : Nat) (results : List Bar)
  | exn
  deriving DecidableEq, Repr

/-- The four numeric counters of `self.stats`
(src/get_1min_data_polygon.py, lines 57-63); `start_time` is not part of the
logic under verification. Within one `download_ticker_data` call the model
tracks the increments that the call applies to the shared counters. -/
structure Stats where
  total_api_calls : Nat
  successful_calls : Nat
  failed_calls : Nat
  total_data_points : Nat
  deriving DecidableEq, Repr

def initStats : Stats := ⟨0, 0, 0, 0⟩

def Stats.add (a b : Stats) : Stats :=
  ⟨a.total_api_calls + b.total_api_calls,
   a.successful_calls + b.successful_calls,
   a.failed_calls + b.failed_calls,
   a.total_data_points + b.total_data_points⟩

/-- State threaded through the chunk loop of `download_ticker_data`:
`all_data` is the accumulated list of per-chunk dataframes, `stats` the
counter increments so far. -/
structure ChunkLoopState where
  all_data : List (List Bar)
  stats : Stats
  deriving DecidableEq, Repr

def initChunkState : ChunkLoopState := ⟨[], initStats⟩

def ChunkLoopState.add (a b : ChunkLoopState) : ChunkLoopState :=
  ⟨a.all_data ++ b.all_data, a.stats.add b.stats⟩

/-- One iteration of the chunk loop of `download_ticker_data`
(src/get_1min_data_polygon.py, lines 396-452). `total_api_calls` is
incremented before the request; a 200 response with a nonempty `results`
array appends the rows and bumps `successful_calls` and `total_data_points`;
a 200 response with no rows bumps only `successful_calls`; a 429 sleeps and
then runs `continue`, which moves on to the next chunk with no counter
change; any other status, or an exception, bumps `failed_calls`. -/
def processChunk (st : ChunkLoopState) (r : FetchResponse) : ChunkLoopState :=
  let st1 : ChunkLoopState :=
    { st with stats := { st.stats with total_api_calls := st.stats.total_api_calls + 1 } }
  match r with
  | .http status results =>
    if status = 200 then
      if results.isEmpty then
        { st1 with stats :=
            { st1.stats with successful_calls := st1.stats.successful_calls + 1 } }
      else
        { st1 with
          all_data := st1.all_data ++ [results],
          stats :=
            { st1.stats with
              successful_calls := st1.stats.successful_calls + 1,
              total_data_points := st1.stats.total_data_points + results.length } }
    else if status = 429 then st1
    else
      { st1 with stats := { st1.stats with failed_calls := st1.stats.failed_calls + 1 } }
  | .exn =>
      { st1 with stats := { st1.stats with failed_calls := st1.stats.failed_calls + 1 } }

/-- Ordering of bars by bucket-start timestamp. -/
def tsLe (a b : Bar) : Prop := a.ts ≤ b.ts

instance : DecidableRel tsLe := fun a b => (inferInstance : Decidable (a.ts ≤ b.ts))
instance : IsTotal Bar tsLe := ⟨fun a b => Nat.le_total a.ts b.ts⟩
instance : IsTrans Bar tsLe := ⟨fun _ _ _ h1 h2 => Nat.le_trans h1 h2⟩

/-- Embedding of `final_df.sort_values('timestamp')`: a comparison sort of the
rows by bucket-start timestamp. -/
def sort_values (l : List Bar) : List Bar := l.insertionSort tsLe

/-- Embedding of pandas `DataFrame.drop_duplicates()` with default arguments
as called on line 457: rows equal in EVERY column are collapsed, keeping the
first occurrence; rows that differ in any column are all kept. -/
def dropDupsFrom (seen : List Bar) : List Bar → List Bar
  | [] => []
  | b :: rest =>
    if b ∈ seen then dropDupsFrom seen rest else b :: dropDupsFrom (b :: seen) rest

def drop_duplicates (l : List Bar) : List Bar := dropDupsFrom [] l

/-- Embedding of line 456-457:
`pd.concat(all_data).sort_values('timestamp').drop_duplicates()` — the rows
written to the output CSV when the buffer is nonempty. -/
def save_frame (all_data : List (List Bar)) : List Bar :=
  drop_duplicates (sort_values all_data.flatten)

/-- Result of one `download_ticker_data` call
(src/get_1min_data_polygon.py, lines 372-469). `retval` is the returned
boolean; `saved_progress` records whether `_save_progress` ran (which inserts
the ticker into `completed_tickers` and rewrites the progress JSON);
`wrote` is `some rows` when the output CSV was written with `rows`, and
`none` when no file write happened; `state` is the final chunk-loop state. -/
structure DownloadOutcome where
  retval : Bool
  saved_progress : Bool
  wrote : Option (List Bar)
  state : ChunkLoopState
  deriving DecidableEq, Repr

/-- Embedding of `download_ticker_data` (src/get_1min_data_polygon.py, lines
372-469). `alreadyCompleted` models `ticker in self.completed_tickers`,
`fileExists` models `output_file.exists()`, and `responses` is the HTTP
outcome oracle: the chunk loop issues exactly one request per chunk, so the
k-th chunk consumes the k-th entry. -/
def download_ticker_data (alreadyCompleted fileExists : Bool)
    (responses : List FetchResponse) : DownloadOutcome :=
  if alreadyCompleted then ⟨true, false, none, initChunkState⟩
  else if fileExists then ⟨true, true, none, initChunkState⟩
  else
    let st := responses.foldl processChunk initChunkState
    if st.all_data.isEmpty then ⟨true, true, none, st⟩
    else ⟨true, true, some (save_frame st.all_data), st⟩

/-- Embedding of the work-queue construction in `download_all_data`
(src/get_1min_data_polygon.py, line 496):
`[ticker for ticker in tickers if ticker not in self.completed_tickers]`. -/
def work_queue (tickers completed : List String) : List String :=
  tickers.filter (fun t => decide (t ∉ completed))

/-- Exception classes that can escape one attempt of `fetch_aggs_month`
(src/data_loading/ohlc_data_loader.py, lines 48-49). `httpError status`
models `requests.HTTPError` carrying the given HTTP status code,
`connectionError` models `requests.ConnectionError`, and `otherError` any
exception outside the decorated tuple (for example a malformed-response
parse error). -/
inductive FetchExn where
  | httpError (status : Nat)
  | connectionError
  | otherError
  deriving DecidableEq, Repr

/-- Outcome of one attempt of the wrapped fetch: a value or a raised
exception. -/
inductive AttemptResult (α : Type) where
  | ok (v : α)
  | raise (e : FetchExn)

/-- The retry predicate declared by the decorator
`@backoff.on_exception(backoff.expo, (requests.HTTPError,
requests.ConnectionError), max_time=300)`: an attempt is retried exactly when
the escaped exception is an instance of one of the two listed classes —
the HTTP status carried by an `HTTPError` is never inspected. -/
def retryable : FetchExn → Bool
  | .httpError _ => true
  | .connectionError => true
  | .otherError => false

/-- Embedding of the `backoff.on_exception` wrapper around one
`fetch_aggs_month` call: attempt `k` consults `oracle k`; a success returns
its value; a retryable exception sleeps the exponential-backoff wait
`2 ^ k` (truncated so the total elapsed time never exceeds `max_time = 300`
seconds) and retries while the elapsed time is still below 300, and
otherwise the exception propagates. Jitter is omitted (deterministic waits).
Returns the result, the number of attempts made, and the final elapsed
time. -/
def backoffRun {α : Type} (oracle : Nat → AttemptResult α) (k elapsed : Nat) :
    Except FetchExn α × Nat × Nat :=
  match oracle k with
  | .ok v => (.ok v, k + 1, elapsed)
  | .raise e =>
    if h : retryable e = true ∧ elapsed < 300 then
      backoffRun oracle (k + 1) (elapsed + min (2 ^ k) (300 - elapsed))
    else (.error e, k + 1, elapsed)
termination_by 300 - elapsed
decreasing_by
  have h1 : 1 ≤ 2 ^ k := Nat.one_le_two_pow
  omega

theorem ChunkLoopState.add_init (a : ChunkLoopState) : a.add initChunkState = a := by
  simp [ChunkLoopState.add, initChunkState, Stats.add, initStats]

theorem ChunkLoopState.add_assoc (a b c : ChunkLoopState) :
    (a.add b).add c = a.add (b.add c) := by
  simp [ChunkLoopState.add, Stats.add]
  omega

theorem processChunk_eq_add (s : ChunkLoopState) (r : FetchResponse) :
    processChunk s r = s.add (processChunk initChunkState r) := by
  cases r with
  | http status results =>
    by_cases h200 : status = 200
    · subst h200
      by_cases hemp : results.isEmpty
      · simp [processChunk, hemp, ChunkLoopState.add, Stats.add, initChunkState, initStats]
      · simp [processChunk, hemp, ChunkLoopState.add, Stats.add, initChunkState, initStats]
    · by_cases h429 : status = 429
      · subst h429
        simp [processChunk, ChunkLoopState.add, Stats.add, initChunkState, initStats]
      · simp [processChunk, h200, h429, ChunkLoopState.add, Stats.add, initChunkState,
          initStats]
  | exn =>
    simp [processChunk, ChunkLoopState.add, Stats.add, initChunkState, initStats]

theorem foldl_processChunk_add (rs : List FetchResponse) :
    ∀ s : ChunkLoopState,
      rs.foldl processChunk s = s.add (rs.foldl processChunk initChunkState) := by
  induction rs with
  | nil =>
    intro s
    simp [ChunkLoopState.add_init]
  | cons r rs ih =>
    intro s
    simp only [List.foldl_cons]
    rw [ih (processChunk s r), ih (processChunk initChunkState r),
      processChunk_eq_add s r, ChunkLoopState.add_assoc]

theorem mem_dropDupsFrom (a : Bar) :
    ∀ (l seen : List Bar), a ∈ dropDupsFrom seen l ↔ a ∈ l ∧ a ∉ seen := by
  intro l
  induction l with
  | nil => intro seen; simp [dropDupsFrom]
  | cons b rest ih =>
    intro seen
    rw [dropDupsFrom]
    split
    · rename_i hb
      rw [ih seen]
      constructor
      · rintro ⟨h1, h2⟩
        exact ⟨List.mem_cons_of_mem _ h1, h2⟩
      · rintro ⟨h1, h2⟩
        rcases List.mem_cons.mp h1 with rfl | h1
        · exact absurd hb h2
        · exact ⟨h1, h2⟩
    · rename_i hb
      simp only [List.mem_cons, ih (b :: seen)]
      constructor
      · rintro (rfl | ⟨h1, h2⟩)
        · exact ⟨Or.inl rfl, hb⟩
        · exact ⟨Or.inr h1, fun hc => h2 (Or.inr hc)⟩
      · rintro ⟨rfl | h1, h2⟩
        · exact Or.inl rfl
        · by_cases hab : a = b
          · exact Or.inl hab
          · exact Or.inr ⟨h1, fun hc => hc.elim hab h2⟩

theorem nodup_dropDupsFrom :
    ∀ (l seen : List Bar), (dropDupsFrom seen l).Nodup := by
  intro l
  induction l with
  | nil => intro seen; simp [dropDupsFrom]
  | cons b rest ih =>
    intro seen
    rw [dropDupsFrom]
    split
    · exact ih seen
    · refine List.nodup_cons.mpr ⟨?_, ih (b :: seen)⟩
      intro hmem
      exact ((mem_dropDupsFrom b rest (b :: seen)).mp hmem).2 (List.mem_cons_self b seen)

theorem sublist_dropDupsFrom :
    ∀ (l seen : List Bar), (dropDupsFrom seen l).Sublist l := by
  intro l
  induction l with
  | nil => intro seen; simp [dropDupsFrom]
  | cons b rest ih =>
    intro seen
    rw [dropDupsFrom]
    split
    · exact (ih seen).cons b
    · exact (ih (b :: seen)).cons₂ b

theorem mem_save_frame (a : Bar) (dfs : List (List Bar)) :
    a ∈ save_frame dfs ↔ a ∈ dfs.flatten := by
  rw [save_frame, drop_duplicates, mem_dropDupsFrom]
  simp [sort_values, List.mem_insertionSort]

theorem save_frame_sorted (dfs : List (List Bar)) :
    (save_frame dfs).Pairwise tsLe := by
  have hs : (sort_values dfs.flatten).Pairwise tsLe :=
    List.sorted_insertionSort tsLe dfs.flatten
  exact hs.sublist (sublist_dropDupsFrom _ [])

theorem save_frame_nodup (dfs : List (List Bar)) : (save_frame dfs).Nodup :=
  nodup_dropDupsFrom _ []

/-- Concrete evaluation of the 45-day chunker on the 69-day range of the
spec scenario (2024-01-01 is day 0, 2024-03-10 is day 69). -/
theorem gdc_45_0_69 : generate_date_chunks_dur 45 0 69 = [(0, 45), (46, 69)] := by
  rw [generate_date_chunks_dur]
  norm_num
  rw [generate_date_chunks_dur]
  norm_num
  rw [generate_date_chunks_dur]
  norm_num

theorem backoffRun_elapsed_le {α : Type} (oracle : Nat → AttemptResult α) :
    ∀ k elapsed, elapsed ≤ 300 → (backoffRun oracle k elapsed).2.2 ≤ 300 := by
  intro k elapsed
  induction k, elapsed using backoffRun.induct oracle with
  | case1 k elapsed v hv =>
    intro hel
    rw [backoffRun, hv]
    exact hel
  | case2 k elapsed e hv hcond ih =>
    intro hel
    rw [backoffRun, hv]
    dsimp only
    rw [dif_pos hcond]
    exact ih (by omega)
  | case3 k elapsed e hv hcond =>
    intro hel
    rw [backoffRun, hv]
    dsimp only
    rw [dif_neg hcond]
    exact hel

theorem foldl_all_empty (rs : List FetchResponse)
    (h : ∀ r ∈ rs, r = FetchResponse.http 200 []) :
    ∀ s : ChunkLoopState, (rs.foldl processChunk s).all_data = s.all_data := by
  induction rs with
  | nil => intro s; rfl
  | cons r rs ih =>
    intro s
    have hr := h r (List.mem_cons_self r rs)
    subst hr
    simp only [List.foldl_cons]
    rw [ih (fun r hr => h r (List.mem_cons_of_mem _ hr))]
    simp [processChunk]

/-- Concrete calendar with uniform 30-day months, used as a witness input. -/
def cal30 : Calendar where
  firstDay := fun m => 30 * m
  firstDay_zero := rfl
  firstDay_mono := fun m => by show 30 * m < 30 * (m + 1); omega

/-- C1 (counterexample): on the valid input `start = 0 < end = 46` the
fixed-duration chunker emits the single chunk `(0, 45)` and then sets
`current` to 46, which fails the strict loop guard `current < end` — day 46,
the requested `end` itself, is covered by no chunk, so the union of the
chunks is not `[start, end]`. The same day is dropped whenever `end - start`
is a positive multiple of `duration + 1`; with `start = end` the output is
even empty. -/
theorem C1_counterexample :
    ¬ ((∃ c ∈ generate_date_chunks 0 46, c.1 ≤ 46 ∧ 46 ≤ c.2) ↔ (0 ≤ 46 ∧ 46 ≤ 46)) := by
  have heval : generate_date_chunks 0 46 = [(0, 45)] := by
    rw [generate_date_chunks]
    rw [generate_date_chunks_dur]
    norm_num
    rw [generate_date_chunks_dur]
    norm_num
  rw [heval]
  decide

/-- C1 (amended): both chunkers emit chunks that are valid
(`start ≤ end` within each chunk), contiguous (each chunk starts the day
after the previous chunk ends) and strictly ordered, hence non-overlapping.
The union of the inclusive chunks equals exactly `[start, end]` for
`month_chunks` whenever `start ≤ end`, and for the fixed-duration
`generate_date_chunks` whenever `start < end` and `end - start` is not a
multiple of `duration + 1`; in the remaining cases (`start = end`, or
`end - start` a positive multiple of `duration + 1`, such as 46 days for the
45-day configuration) the fixed-duration chunker's union misses the final
`end` day. -/
theorem C1_chunkers_cover_range (dur s e : Nat) (c : Calendar) (s2 e2 : Nat)
    (h1 : s < e) (h2 : ¬ (dur + 1) ∣ (e - s)) (h3 : s2 ≤ e2) :
    ((∀ x, ((∃ ch ∈ generate_date_chunks_dur dur s e, ch.1 ≤ x ∧ x ≤ ch.2) ↔
        (s ≤ x ∧ x ≤ e))) ∧
      (∀ ch ∈ generate_date_chunks_dur dur s e, ch.1 ≤ ch.2) ∧
      List.Chain' (fun a b => b.1 = a.2 + 1) (generate_date_chunks_dur dur s e) ∧
      List.Pairwise (fun a b : Nat × Nat => a.2 < b.1) (generate_date_chunks_dur dur s e)) ∧
    ((∀ x, ((∃ ch ∈ month_chunks c s2 e2, ch.1 ≤ x ∧ x ≤ ch.2) ↔ (s2 ≤ x ∧ x ≤ e2))) ∧
      (∀ ch ∈ month_chunks c s2 e2, ch.1 ≤ ch.2) ∧
      List.Chain' (fun a b => b.1 = a.2 + 1) (month_chunks c s2 e2) ∧
      List.Pairwise (fun a b : Nat × Nat => a.2 < b.1) (month_chunks c s2 e2)) := by
  have hm := c.lt_firstDay_succ_monthOf s2
  exact ⟨⟨generate_date_chunks_dur_union dur s e h1 h2,
      generate_date_chunks_dur_valid dur s e,
      generate_date_chunks_dur_chain dur s e,
      generate_date_chunks_dur_pairwise dur s e⟩,
    ⟨month_chunks_union c s2 e2,
      monthChunksFrom_valid c s2 e2 h3 (c.monthOf s2) hm,
      monthChunksFrom_chain c s2 e2 (c.monthOf s2) hm,
      monthChunksFrom_pairwise c s2 e2 (c.monthOf s2) hm⟩⟩

/-- C1 (witness): the amended chunker properties instantiated at the 45-day
duration on the range of days 0..69 and at the uniform 30-day calendar on
days 5..65. -/
theorem C1_chunkers_cover_range_witness :
    ((∀ x, ((∃ ch ∈ generate_date_chunks_dur 45 0 69, ch.1 ≤ x ∧ x ≤ ch.2) ↔
        (0 ≤ x ∧ x ≤ 69))) ∧
      (∀ ch ∈ generate_date_chunks_dur 45 0 69, ch.1 ≤ ch.2) ∧
      List.Chain' (fun a b => b.1 = a.2 + 1) (generate_date_chunks_dur 45 0 69) ∧
      List.Pairwise (fun a b : Nat × Nat => a.2 < b.1) (generate_date_chunks_dur 45 0 69)) ∧
    ((∀ x, ((∃ ch ∈ month_chunks cal30 5 65, ch.1 ≤ x ∧ x ≤ ch.2) ↔ (5 ≤ x ∧ x ≤ 65))) ∧
      (∀ ch ∈ month_chunks cal30 5 65, ch.1 ≤ ch.2) ∧
      List.Chain' (fun a b => b.1 = a.2 + 1) (month_chunks cal30 5 65) ∧
      List.Pairwise (fun a b : Nat × Nat => a.2 < b.1) (month_chunks cal30 5 65)) :=
  C1_chunkers_cover_range 45 0 69 cal30 5 65 (by omega) (by omega) (by omega)

/-- C2 (counterexample): on the range 2024-01-01 .. 2024-03-10 (days 0 .. 69)
the 45-day chunker does NOT return the chunks claimed by the spec:
`2024-01-01 + 45 days` is 2024-02-15 (day 45), not 2024-02-14 (day 44), so
the first chunk ends one day later than claimed. -/
theorem C2_counterexample :
    generate_date_chunks (day2024 1 1) (day2024 3 10) ≠
      [(day2024 1 1, day2024 2 14), (day2024 2 15, day2024 3 10)] := by
  show generate_date_chunks_dur 45 0 69 ≠ [(0, 44), (45, 69)]
  rw [gdc_45_0_69]
  decide

/-- C2 (amended): on the range 2024-01-01 to 2024-03-10 with chunk duration
45 days, `generate_date_chunks` returns exactly the two chunks
(2024-01-01, 2024-02-15) and (2024-02-16, 2024-03-10). -/
theorem C2_concrete_chunks :
    generate_date_chunks (day2024 1 1) (day2024 3 10) =
      [(day2024 1 1, day2024 2 15), (day2024 2 16, day2024 3 10)] := by
  show generate_date_chunks_dur 45 0 69 = [(0, 45), (46, 69)]
  exact gdc_45_0_69

/-- Attempt oracle for the C3 scenario: the first request for the chunk is
rate-limited (HTTP 429); any further request for the same chunk would
succeed with one bar. -/
def c3_attempts : Nat → FetchResponse
  | 0 => FetchResponse.http 429 []
  | _ => FetchResponse.http 200 [⟨0, 1, 1, 1, 1, 1⟩]

/-- C3 (code bug): the source comment on the 429 branch says
"Retry this chunk", but `continue` inside the `for chunk ... in date_chunks`
loop moves on to the NEXT chunk. For a symbol with a single chunk whose
first request is rate-limited and whose retry would succeed, the code
consumes only the first response: the buffer stays empty, the successful
and failed call counters both stay 0 (only `total_api_calls` is
incremented), and nothing is written — the chunk's rows are silently lost
instead of being fetched on a retry. -/
theorem C3_rate_limited_chunk_skipped :
    (download_ticker_data false false [c3_attempts 0]).state.all_data = [] ∧
    (download_ticker_data false false [c3_attempts 0]).state.stats.successful_calls = 0 ∧
    (download_ticker_data false false [c3_attempts 0]).state.stats.failed_calls = 0 ∧
    (download_ticker_data false false [c3_attempts 0]).state.stats.total_api_calls = 1 ∧
    (download_ticker_data false false [c3_attempts 0]).wrote = none ∧
    (download_ticker_data false false [c3_attempts 0]).saved_progress = true := by
  decide

/-- C4 (counterexample): two accumulated rows with the same bucket-start
timestamp 5 but different prices both survive
`sort_values('timestamp').drop_duplicates()` — the written timestamps are
[5, 5], not strictly increasing and not unique, refuting dedup-by-timestamp. -/
theorem C4_counterexample :
    (save_frame [[⟨5, 1, 1, 1, 1, 1⟩], [⟨5, 2, 2, 2, 2, 2⟩]]).map Bar.ts = [5, 5] ∧
    ¬ List.Pairwise (fun a b : Bar => a.ts < b.ts)
        (save_frame [[⟨5, 1, 1, 1, 1, 1⟩], [⟨5, 2, 2, 2, 2, 2⟩]]) := by
  constructor
  · decide
  · decide

/-- C4 (amended): for every accumulated buffer, the rows handed to the
output file are sorted ascending by bucket-start timestamp (non-strictly:
distinct rows may share a timestamp), exact duplicate rows — equal in every
column — are collapsed keeping the first occurrence, and no row is lost or
invented: a row is written iff it was fetched. In particular, when two
overlapping fetches return the same bar twice, exactly one copy is written;
but rows that share a timestamp while differing in some column are all
kept. -/
theorem C4_output_sorted_dedup (dfs : List (List Bar)) :
    (save_frame dfs).Pairwise tsLe ∧ (save_frame dfs).Nodup ∧
    (∀ b : Bar, b ∈ save_frame dfs ↔ b ∈ dfs.flatten) :=
  ⟨save_frame_sorted dfs, save_frame_nodup dfs, fun b => mem_save_frame b dfs⟩

theorem download_completed (fe : Bool) (rs : List FetchResponse) :
    download_ticker_data true fe rs = ⟨true, false, none, initChunkState⟩ := rfl

theorem download_fresh_empty (rs : List FetchResponse)
    (h : (rs.foldl processChunk initChunkState).all_data = []) :
    download_ticker_data false false rs =
      ⟨true, true, none, rs.foldl processChunk initChunkState⟩ := by
  rw [download_ticker_data]
  simp [h]

theorem download_fresh_nonempty (rs : List FetchResponse)
    (h : (rs.foldl processChunk initChunkState).all_data ≠ []) :
    download_ticker_data false false rs =
      ⟨true, true, some (save_frame (rs.foldl processChunk initChunkState).all_data),
        rs.foldl processChunk initChunkState⟩ := by
  rw [download_ticker_data]
  simp [h]

/-- Attempt oracle for the C5 scenario: the first attempt raises
`requests.HTTPError` with status 404 (a fatal status per the claim); any
further attempt succeeds. -/
def c5_attempts : Nat → AttemptResult Nat
  | 0 => AttemptResult.raise (FetchExn.httpError 404)
  | _ => AttemptResult.ok 7

/-- C5 (counterexample): an HTTPError carrying status 404 does NOT propagate
immediately out of the retry wrapper: the decorator retries any
`requests.HTTPError` without inspecting its status, so with a 404 on attempt
1 and success on attempt 2 the wrapped call returns the success value
instead of raising the fatal error. -/
theorem C5_counterexample : (backoffRun c5_attempts 0 0).1 = Except.ok 7 := by
  have h1 : backoffRun c5_attempts 0 0 = backoffRun c5_attempts 1 1 := by
    rw [backoffRun]
    dsimp only [c5_attempts]
    rw [dif_pos (by constructor <;> norm_num [retryable])]
    norm_num
  rw [h1, backoffRun]
  dsimp only [c5_attempts]

/-- C5 (amended): the retry wrapper around one chunk fetch retries exactly
the exception classes listed in the decorator — `requests.HTTPError` with
ANY status (including 4xx statuses other than 429) and
`requests.ConnectionError` — with exponential backoff whose total elapsed
time is bounded by 300 seconds across all attempts for that chunk;
exceptions outside those two classes (for example a malformed-response
parse error) propagate immediately without any retry. -/
theorem C5_retry_policy {α : Type} (oracle : Nat → AttemptResult α) (k elapsed : Nat)
    (hel : elapsed ≤ 300) :
    (backoffRun oracle k elapsed).2.2 ≤ 300 ∧
    (∀ e, oracle k = AttemptResult.raise e → retryable e = false →
      backoffRun oracle k elapsed = (Except.error e, k + 1, elapsed)) ∧
    (∀ e, oracle k = AttemptResult.raise e → retryable e = true → elapsed < 300 →
      backoffRun oracle k elapsed =
        backoffRun oracle (k + 1) (elapsed + min (2 ^ k) (300 - elapsed))) ∧
    (∀ s, retryable (FetchExn.httpError s) = true) ∧
    retryable FetchExn.connectionError = true ∧
    retryable FetchExn.otherError = false := by
  refine ⟨backoffRun_elapsed_le oracle k elapsed hel, ?_, ?_, fun s => rfl, rfl, rfl⟩
  · intro e he hre
    rw [backoffRun, he]
    dsimp only
    rw [dif_neg]
    simp [hre]
  · intro e he hre hlt
    rw [backoffRun, he]
    dsimp only
    rw [dif_pos ⟨hre, hlt⟩]

/-- C5 (witness): the amended retry-policy properties instantiated at the
404-then-success attempt oracle starting from elapsed time 0. -/
theorem C5_retry_policy_witness :
    (backoffRun c5_attempts 0 0).2.2 ≤ 300 ∧
    (∀ e, c5_attempts 0 = AttemptResult.raise e → retryable e = false →
      backoffRun c5_attempts 0 0 = (Except.error e, 0 + 1, 0)) ∧
    (∀ e, c5_attempts 0 = AttemptResult.raise e → retryable e = true → 0 < 300 →
      backoffRun c5_attempts 0 0 =
        backoffRun c5_attempts (0 + 1) (0 + min (2 ^ 0) (300 - 0))) ∧
    (∀ s, retryable (FetchExn.httpError s) = true) ∧
    retryable FetchExn.connectionError = true ∧
    retryable FetchExn.otherError = false :=
  C5_retry_policy c5_attempts 0 0 (by omega)

/-- C6: a chunk whose request fails with a fatal HTTP status (neither 200
nor 429) does not abort the symbol: the final buffer is exactly the buffer
of the chunks before it followed by the buffer of the chunks after it (all
later chunks are still fetched and accumulated), the failure adds exactly
one `failed_calls` increment, and every row fetched by a later chunk
appears in the written output file. -/
theorem C6_fatal_chunk_does_not_abort (pre post : List FetchResponse)
    (code : Nat) (results : List Bar) (h200 : code ≠ 200) (h429 : code ≠ 429) :
    ((pre ++ FetchResponse.http code results :: post).foldl processChunk
        initChunkState).all_data =
      (pre.foldl processChunk initChunkState).all_data ++
        (post.foldl processChunk initChunkState).all_data ∧
    ((pre ++ FetchResponse.http code results :: post).foldl processChunk
        initChunkState).stats.failed_calls =
      (pre.foldl processChunk initChunkState).stats.failed_calls + 1 +
        (post.foldl processChunk initChunkState).stats.failed_calls ∧
    (∀ b : Bar,
      b ∈ ((post.foldl processChunk initChunkState).all_data).flatten →
      ∃ w, (download_ticker_data false false
        (pre ++ FetchResponse.http code results :: post)).wrote = some w ∧ b ∈ w) := by
  have hmid : processChunk initChunkState (FetchResponse.http code results) =
      ⟨[], ⟨1, 0, 1, 0⟩⟩ := by
    simp [processChunk, h200, h429, initChunkState, initStats]
  have hfull : (pre ++ FetchResponse.http code results :: post).foldl processChunk
      initChunkState =
      ((pre.foldl processChunk initChunkState).add (⟨[], ⟨1, 0, 1, 0⟩⟩ : ChunkLoopState)).add
        (post.foldl processChunk initChunkState) := by
    rw [List.foldl_append, List.foldl_cons, foldl_processChunk_add post,
      processChunk_eq_add, hmid]
  refine ⟨?_, ?_, ?_⟩
  · rw [hfull]
    simp [ChunkLoopState.add]
  · rw [hfull]
    simp [ChunkLoopState.add, Stats.add]
  · intro b hb
    obtain ⟨l, hl, hbl⟩ := List.mem_flatten.mp hb
    have hne : ((pre ++ FetchResponse.http code results :: post).foldl processChunk
        initChunkState).all_data ≠ [] := by
      rw [hfull]
      simp only [ChunkLoopState.add, List.append_assoc, List.nil_append]
      intro hcon
      rw [List.append_eq_nil] at hcon
      rw [hcon.2] at hl
      exact absurd hl (List.not_mem_nil l)
    rw [download_fresh_nonempty _ hne]
    refine ⟨save_frame ((pre ++ FetchResponse.http code results :: post).foldl
        processChunk initChunkState).all_data, rfl, ?_⟩
    rw [mem_save_frame]
    refine List.mem_flatten.mpr ⟨l, ?_, hbl⟩
    rw [hfull]
    simp only [ChunkLoopState.add, List.append_assoc, List.nil_append]
    exact List.mem_append_right _ hl

/-- C6 (witness): the fatal-chunk tolerance instantiated at a one-chunk
prefix fetching one bar, a 404 failure, and a one-chunk suffix fetching one
bar. -/
theorem C6_fatal_chunk_does_not_abort_witness :
    (([FetchResponse.http 200 [⟨1, 1, 1, 1, 1, 1⟩]] ++ FetchResponse.http 404 [] ::
        [FetchResponse.http 200 [⟨2, 2, 2, 2, 2, 2⟩]]).foldl processChunk
        initChunkState).all_data =
      (([FetchResponse.http 200 [⟨1, 1, 1, 1, 1, 1⟩]] : List FetchResponse).foldl
          processChunk initChunkState).all_data ++
        (([FetchResponse.http 200 [⟨2, 2, 2, 2, 2, 2⟩]] : List FetchResponse).foldl
          processChunk initChunkState).all_data ∧
    (([FetchResponse.http 200 [⟨1, 1, 1, 1, 1, 1⟩]] ++ FetchResponse.http 404 [] ::
        [FetchResponse.http 200 [⟨2, 2, 2, 2, 2, 2⟩]]).foldl processChunk
        initChunkState).stats.failed_calls =
      (([FetchResponse.http 200 [⟨1, 1, 1, 1, 1, 1⟩]] : List FetchResponse).foldl
          processChunk initChunkState).stats.failed_calls + 1 +
        (([FetchResponse.http 200 [⟨2, 2, 2, 2, 2, 2⟩]] : List FetchResponse).foldl
          processChunk initChunkState).stats.failed_calls ∧
    (∀ b : Bar,
      b ∈ ((([FetchResponse.http 200 [⟨2, 2, 2, 2, 2, 2⟩]] : List FetchResponse).foldl
          processChunk initChunkState).all_data).flatten →
      ∃ w, (download_ticker_data false false
        ([FetchResponse.http 200 [⟨1, 1, 1, 1, 1, 1⟩]] ++ FetchResponse.http 404 [] ::
          [FetchResponse.http 200 [⟨2, 2, 2, 2, 2, 2⟩]])).wrote = some w ∧ b ∈ w) :=
  C6_fatal_chunk_does_not_abort [FetchResponse.http 200 [⟨1, 1, 1, 1, 1, 1⟩]]
    [FetchResponse.http 200 [⟨2, 2, 2, 2, 2, 2⟩]] 404 [] (by omega) (by omega)

/-- C7 (counterexample): a fresh symbol (not completed, no pre-existing
file) whose only chunk fetch returns 200 with zero rows is marked completed
(`_save_progress` runs) while no output file is written — so at the moment
of marking no output file exists on disk, refuting the claimed invariant. -/
theorem C7_counterexample :
    (download_ticker_data false false [FetchResponse.http 200 []]).saved_progress = true ∧
    (download_ticker_data false false [FetchResponse.http 200 []]).wrote = none := by
  decide

/-- C7 (amended): when a fresh symbol finishes its chunk loop with a
NON-empty accumulated buffer, it is marked completed and at that moment the
output file has just been written, containing exactly the sorted,
row-deduplicated accumulated rows (every accumulated row is present in it);
a symbol finishing with an empty buffer is marked completed without any
output file being written. -/
theorem C7_completed_file_contents (rs : List FetchResponse)
    (h : (rs.foldl processChunk initChunkState).all_data ≠ []) :
    (download_ticker_data false false rs).saved_progress = true ∧
    (download_ticker_data false false rs).wrote =
      some (save_frame (rs.foldl processChunk initChunkState).all_data) ∧
    (∀ b : Bar, b ∈ ((rs.foldl processChunk initChunkState).all_data).flatten →
      ∃ w, (download_ticker_data false false rs).wrote = some w ∧ b ∈ w) := by
  rw [download_fresh_nonempty rs h]
  refine ⟨rfl, rfl, ?_⟩
  intro b hb
  exact ⟨save_frame ((rs.foldl processChunk initChunkState).all_data), rfl,
    (mem_save_frame b _).mpr hb⟩

/-- C7 (witness): the amended completion invariant instantiated at a single
chunk returning one bar. -/
theorem C7_completed_file_contents_witness :
    (download_ticker_data false false
      [FetchResponse.http 200 [⟨3, 1, 1, 1, 1, 1⟩]]).saved_progress = true ∧
    (download_ticker_data false false [FetchResponse.http 200 [⟨3, 1, 1, 1, 1, 1⟩]]).wrote =
      some (save_frame (([FetchResponse.http 200 [⟨3, 1, 1, 1, 1, 1⟩]] :
        List FetchResponse).foldl processChunk initChunkState).all_data) ∧
    (∀ b : Bar,
      b ∈ ((([FetchResponse.http 200 [⟨3, 1, 1, 1, 1, 1⟩]] : List FetchResponse).foldl
        processChunk initChunkState).all_data).flatten →
      ∃ w, (download_ticker_data false false
        [FetchResponse.http 200 [⟨3, 1, 1, 1, 1, 1⟩]]).wrote = some w ∧ b ∈ w) :=
  C7_completed_file_contents [FetchResponse.http 200 [⟨3, 1, 1, 1, 1, 1⟩]] (by decide)

/-- C8: a fresh symbol whose every chunk fetch returns 200 with an empty
result set terminates with `retval = true`, writes no output file, and is
added to the persisted completed set; a subsequent run, seeing the symbol
in the completed set, returns immediately with zero API calls, writes
nothing, and does not re-mark it. -/
theorem C8_all_empty_completed_not_retried (rs : List FetchResponse)
    (h : ∀ r ∈ rs, r = FetchResponse.http 200 []) :
    (download_ticker_data false false rs).retval = true ∧
    (download_ticker_data false false rs).wrote = none ∧
    (download_ticker_data false false rs).saved_progress = true ∧
    (download_ticker_data true false rs).state.stats.total_api_calls = 0 ∧
    (download_ticker_data true false rs).retval = true ∧
    (download_ticker_data true false rs).wrote = none := by
  have hemp : (rs.foldl processChunk initChunkState).all_data = [] :=
    foldl_all_empty rs h initChunkState
  rw [download_fresh_empty rs hemp, download_completed]
  exact ⟨rfl, rfl, rfl, rfl, rfl, rfl⟩

/-- C8 (witness): the completed-empty behaviour instantiated at two chunks
that both return 200 with no rows. -/
theorem C8_all_empty_completed_not_retried_witness :
    (download_ticker_data false false
      [FetchResponse.http 200 [], FetchResponse.http 200 []]).retval = true ∧
    (download_ticker_data false false
      [FetchResponse.http 200 [], FetchResponse.http 200 []]).wrote = none ∧
    (download_ticker_data false false
      [FetchResponse.http 200 [], FetchResponse.http 200 []]).saved_progress = true ∧
    (download_ticker_data true false
      [FetchResponse.http 200 [], FetchResponse.http 200 []]).state.stats.total_api_calls
      = 0 ∧
    (download_ticker_data true false
      [FetchResponse.http 200 [], FetchResponse.http 200 []]).retval = true ∧
    (download_ticker_data true false
      [FetchResponse.http 200 [], FetchResponse.http 200 []]).wrote = none :=
  C8_all_empty_completed_not_retried
    [FetchResponse.http 200 [], FetchResponse.http 200 []] (by decide)

/-- C9: a symbol in the loaded completed set at the start of a run is
excluded from the work queue built by `download_all_data`, and even if its
per-symbol task were invoked it would return immediately before any fetch:
zero API calls, no counter changes, no file write, no re-marking. -/
theorem C9_completed_symbols_skipped (tickers completed : List String) (t : String)
    (h : t ∈ completed) :
    t ∉ work_queue tickers completed ∧
    (∀ (fileExists : Bool) (rs : List FetchResponse),
      download_ticker_data true fileExists rs =
        ⟨true, false, none, initChunkState⟩) := by
  constructor
  · intro hq
    have := (List.mem_filter.mp hq).2
    simp only [decide_eq_true_eq] at this
    exact this h
  · intro fe rs
    exact download_completed fe rs

/-- C9 (witness): the resume-skip property instantiated at a two-ticker
universe with one completed ticker. -/
theorem C9_completed_symbols_skipped_witness :
    "AAPL" ∉ work_queue ["A", "AAPL"] ["AAPL"] ∧
    (∀ (fileExists : Bool) (rs : List FetchResponse),
      download_ticker_data true fileExists rs =
        ⟨true, false, none, initChunkState⟩) :=
  C9_completed_symbols_skipped ["A", "AAPL"] ["AAPL"] "AAPL" (by simp)

/-- C10: `download_ticker_data` returns `True` on every non-exception path,
and `_save_progress` (which permanently records the ticker as complete)
runs on exactly the paths other than the already-completed skip — including
the path where the buffer is empty because every chunk failed, so
chunk-level failures are recorded as complete and never re-fetched. -/
theorem C10_always_true_always_marks (alreadyCompleted fileExists : Bool)
    (rs : List FetchResponse) :
    (download_ticker_data alreadyCompleted fileExists rs).retval = true ∧
    (download_ticker_data alreadyCompleted fileExists rs).saved_progress
      = !alreadyCompleted := by
  cases alreadyCompleted with
  | true => rw [download_completed]; exact ⟨rfl, rfl⟩
  | false =>
    cases fileExists with
    | true => exact ⟨rfl, rfl⟩
    | false =>
      cases hl : (rs.foldl processChunk initChunkState).all_data with
      | nil =>
        rw [download_fresh_empty rs hl]
        exact ⟨rfl, rfl⟩
      | cons x xs =>
        rw [download_fresh_nonempty rs (by rw [hl]; exact List.cons_ne_nil x xs)]
        exact ⟨rfl, rfl⟩

end Polygon
